import Mathlib

/-!
Shallow embedding of the CryptoNight v0 (cn/0) implementation from
src/wasm_src/cryptonight_impl.c, together with theorems settling the
specification claims.  Machine integers are modelled as Nat with explicit
reduction modulo 2^8 / 2^32 / 2^64 where the C code wraps; byte buffers are
lists of Nat; the 2 MiB scratchpad is a function from byte offsets to bytes.
The four terminal hash functions (Blake-256, Groestl-256, JH-256, Skein-256)
are external collaborators linked at compile time, so the embedding is
parameterized over them.
-/

namespace CryptoNight

/-! ### Byte level helpers -/

/-- Little-endian 64-bit read of eight bytes of a byte list starting at `off`
(mirrors a memcpy of 8 bytes into a uint64 on a little-endian host). -/
def le64At (l : List Nat) (off : Nat) : Nat :=
  l.getD off 0 + 256 * (l.getD (off+1) 0 + 256 * (l.getD (off+2) 0 + 256 *
    (l.getD (off+3) 0 + 256 * (l.getD (off+4) 0 + 256 * (l.getD (off+5) 0 + 256 *
    (l.getD (off+6) 0 + 256 * l.getD (off+7) 0))))))

/-! ### Keccak-f[1600], translated from keccakf in the C source -/

/-- Round constants of Keccak-f[1600] (keccak_rc in the source). -/
def keccak_rc : List Nat :=
  [0x0000000000000001, 0x0000000000008082, 0x800000000000808a,
   0x8000000080008000, 0x000000000000808b, 0x0000000080000001,
   0x8000000080008081, 0x8000000000008009, 0x000000000000008a,
   0x0000000000000088, 0x0000000080008009, 0x000000008000000a,
   0x000000008000808b, 0x800000000000008b, 0x8000000000008089,
   0x8000000000008003, 0x8000000000008002, 0x8000000000000080,
   0x000000000000800a, 0x800000008000000a, 0x8000000080008081,
   0x8000000000008080, 0x0000000080000001, 0x8000000080008008]

/-- Lane permutation table of the combined rho and pi step (piln). -/
def piln : List Nat :=
  [10, 7, 11, 17, 18, 3, 5, 16, 8, 21, 24, 4,
   15, 23, 19, 13, 12, 2, 20, 14, 22, 9, 6, 1]

/-- Rotation offsets of the combined rho and pi step (rotc). -/
def rotc : List Nat :=
  [1, 3, 6, 10, 15, 21, 28, 36, 45, 55, 2, 14,
   27, 41, 56, 8, 25, 43, 62, 18, 39, 61, 20, 44]

/-- 64-bit rotate left as the C macro ROTL64, with uint64 wrap on the left
shift. -/
def rotl64 (x y : Nat) : Nat := ((x <<< y) % 2^64) ||| (x >>> (64 - y))

/-- One round of Keccak-f[1600]: theta, rho and pi, chi, iota, on a 25-lane
state held as a list of 64-bit lanes. -/
def keccakRound (st : List Nat) (round : Nat) : List Nat :=
  let bc : List Nat := (List.range 5).map (fun i =>
    st.getD i 0 ^^^ st.getD (i+5) 0 ^^^ st.getD (i+10) 0 ^^^
    st.getD (i+15) 0 ^^^ st.getD (i+20) 0)
  let st1 : List Nat := (List.range 25).map (fun k =>
    st.getD k 0 ^^^ (bc.getD ((k % 5 + 4) % 5) 0 ^^^ rotl64 (bc.getD ((k % 5 + 1) % 5) 0) 1))
  let rp : List Nat × Nat := (List.range 24).foldl
    (fun (p : List Nat × Nat) i =>
      let j := piln.getD i 0
      let temp := p.1.getD j 0
      (p.1.set j (rotl64 p.2 (rotc.getD i 0)), temp))
    (st1, st1.getD 1 0)
  let st2 := rp.1
  let st3 : List Nat := (List.range 25).map (fun k =>
    st2.getD k 0 ^^^
      (((2^64 - 1) ^^^ st2.getD (5 * (k / 5) + (k % 5 + 1) % 5) 0) &&&
        st2.getD (5 * (k / 5) + (k % 5 + 2) % 5) 0))
  st3.set 0 (st3.getD 0 0 ^^^ keccak_rc.getD round 0)

/-- Keccak-f[1600]: 24 rounds. -/
def keccakf (st : List Nat) : List Nat := (List.range 24).foldl keccakRound st

/-! ### keccak1600, translated from the C source -/

/-- Absorb one 136-byte block: XOR its seventeen little-endian 64-bit lanes
into the state. -/
def absorbBlock (st : List Nat) (block : List Nat) : List Nat :=
  (List.range 25).map (fun k => if k < 17 then st.getD k 0 ^^^ le64At block (8*k) else st.getD k 0)

/-- Final-block construction of keccak1600: a zeroed 136-byte buffer, the
remaining message bytes copied in, 0x01 written just past them, and 0x80
OR-ed into the last rate byte, exactly as in the C source. -/
def padBlock (rest : List Nat) : List Nat :=
  let t1 := rest ++ List.replicate (136 - rest.length) 0
  let t2 := t1.set rest.length 0x01
  t2.set 135 (t2.getD 135 0 ||| 0x80)

/-- Absorbing loop of keccak1600: process full 136-byte blocks while at least
136 input bytes remain, then absorb the padded final block. -/
def keccakAbsorb (st : List Nat) (input : List Nat) : List Nat :=
  if h : 136 ≤ input.length then
    keccakAbsorb (keccakf (absorbBlock st (input.take 136))) (input.drop 136)
  else
    keccakf (absorbBlock st (padBlock input))
termination_by input.length
decreasing_by simp only [List.length_drop]; omega

/-- Serialize the 25-lane state to its 200 bytes (little-endian lanes),
mirroring the final memcpy of the whole state. -/
def lanesToBytes (st : List Nat) : List Nat :=
  (List.range 200).map (fun i => (st.getD (i / 8) 0 >>> (8 * (i % 8))) % 256)

/-- keccak1600: rate-1088 sponge over the input, emitting the full 200-byte
state rather than a truncated digest. -/
def keccak1600 (input : List Nat) : List Nat :=
  lanesToBytes (keccakAbsorb (List.replicate 25 0) input)

/-! ### Software AES, translated from the C source -/

/-- The standard AES forward S-box table (aes_sbox in the source). -/
def aes_sbox : List Nat :=
  [0x63,0x7c,0x77,0x7b,0xf2,0x6b,0x6f,0xc5,0x30,0x01,0x67,0x2b,0xfe,0xd7,0xab,0x76,
   0xca,0x82,0xc9,0x7d,0xfa,0x59,0x47,0xf0,0xad,0xd4,0xa2,0xaf,0x9c,0xa4,0x72,0xc0,
   0xb7,0xfd,0x93,0x26,0x36,0x3f,0xf7,0xcc,0x34,0xa5,0xe5,0xf1,0x71,0xd8,0x31,0x15,
   0x04,0xc7,0x23,0xc3,0x18,0x96,0x05,0x9a,0x07,0x12,0x80,0xe2,0xeb,0x27,0xb2,0x75,
   0x09,0x83,0x2c,0x1a,0x1b,0x6e,0x5a,0xa0,0x52,0x3b,0xd6,0xb3,0x29,0xe3,0x2f,0x84,
   0x53,0xd1,0x00,0xed,0x20,0xfc,0xb1,0x5b,0x6a,0xcb,0xbe,0x39,0x4a,0x4c,0x58,0xcf,
   0xd0,0xef,0xaa,0xfb,0x43,0x4d,0x33,0x85,0x45,0xf9,0x02,0x7f,0x50,0x3c,0x9f,0xa8,
   0x51,0xa3,0x40,0x8f,0x92,0x9d,0x38,0xf5,0xbc,0xb6,0xda,0x21,0x10,0xff,0xf3,0xd2,
   0xcd,0x0c,0x13,0xec,0x5f,0x97,0x44,0x17,0xc4,0xa7,0x7e,0x3d,0x64,0x5d,0x19,0x73,
   0x60,0x81,0x4f,0xdc,0x22,0x2a,0x90,0x88,0x46,0xee,0xb8,0x14,0xde,0x5e,0x0b,0xdb,
   0xe0,0x32,0x3a,0x0a,0x49,0x06,0x24,0x5c,0xc2,0xd3,0xac,0x62,0x91,0x95,0xe4,0x79,
   0xe7,0xc8,0x37,0x6d,0x8d,0xd5,0x4e,0xa9,0x6c,0x56,0xf4,0xea,0x65,0x7a,0xae,0x08,
   0xba,0x78,0x25,0x2e,0x1c,0xa6,0xb4,0xc6,0xe8,0xdd,0x74,0x1f,0x4b,0xbd,0x8b,0x8a,
   0x70,0x3e,0xb5,0x66,0x48,0x03,0xf6,0x0e,0x61,0x35,0x57,0xb9,0x86,0xc1,0x1d,0x9e,
   0xe1,0xf8,0x98,0x11,0x69,0xd9,0x8e,0x94,0x9b,0x1e,0x87,0xe9,0xce,0x55,0x28,0xdf,
   0x8c,0xa1,0x89,0x0d,0xbf,0xe6,0x42,0x68,0x41,0x99,0x2d,0x0f,0xb0,0x54,0xbb,0x16]

/-- S-box lookup on a byte. -/
def sboxAt (x : Nat) : Nat := aes_sbox.getD x 0

/-- Multiplication by 2 in GF(2^8) modulo x^8+x^4+x^3+x+1, as the C xtime:
left shift, conditional XOR with 0x1b, truncated to a uint8. -/
def xtime (x : Nat) : Nat := ((x <<< 1) ^^^ (((x >>> 7) &&& 1) * 0x1b)) % 256

/-- The ShiftRows permutation as the sixteen explicit assignments in the C
source (position i of the output reads position srcShiftN i of the input). -/
def srcShiftN (n : Nat) : Nat :=
  [0, 5, 10, 15, 4, 9, 14, 3, 8, 13, 2, 7, 12, 1, 6, 11].getD n 0

theorem srcShiftN_lt : ∀ n, n < 16 → srcShiftN n < 16 := by decide

/-- MixColumns of one column as the four xtime formulas in the C source. -/
def mixColSrc (a0 a1 a2 a3 : Nat) : Nat → Nat := fun r =>
  [xtime a0 ^^^ xtime a1 ^^^ a1 ^^^ a2 ^^^ a3,
   a0 ^^^ xtime a1 ^^^ xtime a2 ^^^ a2 ^^^ a3,
   a0 ^^^ a1 ^^^ xtime a2 ^^^ xtime a3 ^^^ a3,
   xtime a0 ^^^ a0 ^^^ a1 ^^^ a2 ^^^ xtime a3].getD r 0

/-- Single AES round translated from aes_single_round in the C source:
SubBytes, the explicit ShiftRows assignments, the xtime-based MixColumns
formulas, then XOR with the caller-supplied round key. -/
def aes_single_round (inp key : Fin 16 → Nat) : Fin 16 → Nat := fun i =>
  let t : Fin 16 → Nat := fun k => sboxAt (inp k)
  let s : Fin 16 → Nat := fun k => t ⟨srcShiftN k.val, srcShiftN_lt k.val k.isLt⟩
  let c := (i : Nat) / 4
  have hc : c < 4 := by have := i.isLt; omega
  mixColSrc (s ⟨4 * c, by omega⟩) (s ⟨4 * c + 1, by omega⟩)
    (s ⟨4 * c + 2, by omega⟩) (s ⟨4 * c + 3, by omega⟩) ((i : Nat) % 4)
    ^^^ key i

/-! ### The AES round as the specification words it (for claim C4) -/

/-- SubBytes per the specification. -/
def subBytes (b : Fin 16 → Nat) : Fin 16 → Nat := fun i => sboxAt (b i)

/-- ShiftRows per the specification: canonical column-major layout
(index = row + 4 * col), row r rotated left by r positions. -/
def shiftRows (b : Fin 16 → Nat) : Fin 16 → Nat := fun i =>
  b ⟨(i : Nat) % 4 + 4 * (((i : Nat) / 4 + (i : Nat) % 4) % 4), by
    have h1 : (i : Nat) % 4 < 4 := Nat.mod_lt _ (by omega)
    have h2 : (((i : Nat) / 4 + (i : Nat) % 4)) % 4 < 4 := Nat.mod_lt _ (by omega)
    omega⟩

/-- General GF(2^8) multiplication modulo x^8+x^4+x^3+x+1, by shift-and-add
over the eight bits of the second operand. -/
def gfMul (a b : Nat) : Nat :=
  ((List.range 8).foldl (fun (p : Nat × Nat × Nat) _ =>
      (if p.2.2 % 2 = 1 then p.1 ^^^ p.2.1 else p.1, xtime p.2.1, p.2.2 / 2))
    (0, a % 256, b % 256)).1

/-- The MixColumns MDS matrix from the specification. -/
def mds (r k : Nat) : Nat :=
  ([[2, 3, 1, 1], [1, 2, 3, 1], [1, 1, 2, 3], [3, 1, 1, 2]].getD r []).getD k 0

/-- MixColumns per the specification: the output byte at row r of column c is
the GF(2^8) dot product of row r of the MDS matrix with column c. -/
def mixColumns (b : Fin 16 → Nat) : Fin 16 → Nat := fun i =>
  have hi : (i : Nat) < 16 := i.isLt
  gfMul (mds ((i : Nat) % 4) 0) (b ⟨4 * ((i : Nat) / 4), by omega⟩) ^^^
  gfMul (mds ((i : Nat) % 4) 1) (b ⟨4 * ((i : Nat) / 4) + 1, by omega⟩) ^^^
  gfMul (mds ((i : Nat) % 4) 2) (b ⟨4 * ((i : Nat) / 4) + 2, by omega⟩) ^^^
  gfMul (mds ((i : Nat) % 4) 3) (b ⟨4 * ((i : Nat) / 4) + 3, by omega⟩)

/-- AddRoundKey per the specification. -/
def addRoundKey (b key : Fin 16 → Nat) : Fin 16 → Nat := fun i => b i ^^^ key i

/-- The AES single round in the order the specification states it. -/
def aesRoundSpec (inp key : Fin 16 → Nat) : Fin 16 → Nat :=
  addRoundKey (mixColumns (shiftRows (subBytes inp))) key

/-! ### AES-256 key expansion and pseudo round, translated from the C source -/

/-- The Rcon table of the key schedule. -/
def rcon : List Nat := [0x01, 0x02, 0x04, 0x08, 0x10, 0x20, 0x40]

/-- One four-byte extension step of the AES-256 key schedule, at current
length n: RotWord+SubWord+Rcon when n mod 32 = 0, SubWord only when
n mod 32 = 16, then XOR with the word 32 bytes earlier. -/
def expandWord (acc : List Nat) : List Nat :=
  let n := acc.length
  let t0 := acc.getD (n-4) 0
  let t1 := acc.getD (n-3) 0
  let t2 := acc.getD (n-2) 0
  let t3 := acc.getD (n-1) 0
  let w : List Nat :=
    if n % 32 = 0 then
      [sboxAt t1 ^^^ rcon.getD (n / 32 - 1) 0, sboxAt t2, sboxAt t3, sboxAt t0]
    else if n % 32 = 16 then
      [sboxAt t0, sboxAt t1, sboxAt t2, sboxAt t3]
    else [t0, t1, t2, t3]
  acc ++ (List.range 4).map (fun i => acc.getD (n - 32 + i) 0 ^^^ w.getD i 0)

theorem expandWord_length (acc : List Nat) : (expandWord acc).length = acc.length + 4 := by
  simp [expandWord]

/-- The while loop of aes256_expand_key: extend by four bytes until 240. -/
def expandLoop (acc : List Nat) : List Nat :=
  if acc.length < 240 then expandLoop (expandWord acc) else acc
termination_by 240 - acc.length
decreasing_by simp only [expandWord_length]; omega

/-- AES-256 key expansion: a 32-byte key expanded to 240 bytes. -/
def aes256_expand_key (key : List Nat) : List Nat := expandLoop (key.take 32)

/-- Ten AES rounds with the ten successive 16-byte round keys taken from the
expanded key (aes_pseudo_round in the source). -/
def aes_pseudo_round (data : Fin 16 → Nat) (ek : List Nat) : Fin 16 → Nat :=
  (List.range 10).foldl
    (fun d r => aes_single_round d (fun i => ek.getD (16*r + (i : Nat)) 0)) data

/-! ### Scratchpad engine, translated from cn_hash in the C source -/

/-- 2 MiB scratchpad size (CN_MEMORY). -/
def CN_MEMORY : Nat := 2097152

/-- Iteration budget (CN_ITER); the main loop runs CN_ITER / 2 times. -/
def CN_ITER : Nat := 524288

/-- View 16 bytes of a list starting at a byte offset as an AES block. -/
def blockFn (l : List Nat) (off : Nat) : Fin 16 → Nat := fun i => l.getD (off + (i : Nat)) 0

/-- AES block back to a 16-byte list. -/
def blockToList (f : Fin 16 → Nat) : List Nat := List.ofFn f

/-- Overwrite the bytes of a list at offsets [off, off + repl.length) with
repl, preserving the length. -/
def setRange (l : List Nat) (off : Nat) (repl : List Nat) : List Nat :=
  (List.range l.length).map (fun i =>
    if off ≤ i ∧ i < off + repl.length then repl.getD (i - off) 0 else l.getD i 0)

/-- Overwrite scratchpad bytes at offsets [off, off + bytes.length). -/
def writeBytes (P : Nat → Nat) (off : Nat) (bytes : List Nat) : Nat → Nat :=
  fun idx => if off ≤ idx ∧ idx < off + bytes.length then bytes.getD (idx - off) 0 else P idx

/-- Store a 64-bit word into the scratchpad at a byte offset, little-endian. -/
def store64 (P : Nat → Nat) (off v : Nat) : Nat → Nat :=
  fun idx => if off ≤ idx ∧ idx < off + 8 then (v >>> (8 * (idx - off))) % 256 else P idx

/-- Load a 64-bit word from the scratchpad at a byte offset, little-endian. -/
def le64P (P : Nat → Nat) (off : Nat) : Nat :=
  P off + 256 * (P (off+1) + 256 * (P (off+2) + 256 * (P (off+3) + 256 *
    (P (off+4) + 256 * (P (off+5) + 256 * (P (off+6) + 256 * P (off+7)))))))

/-- Apply aes_pseudo_round in place to each of the eight 16-byte blocks of
the 128-byte text buffer, in order. -/
def pseudoRoundText (tx : List Nat) (ek : List Nat) : List Nat :=
  (List.range 8).foldl
    (fun t j => setRange t (16*j) (blockToList (aes_pseudo_round (blockFn t (16*j)) ek))) tx

/-- Scratchpad initialization: walk the 2 MiB buffer in 128-byte strides;
at each stride run the pseudo round over the text buffer and copy the text
into the scratchpad. -/
def initScratchpad (st : List Nat) (ek : List Nat) : Nat → Nat :=
  ((List.range (CN_MEMORY / 128)).foldl
    (fun (p : List Nat × (Nat → Nat)) k =>
      let t2 := pseudoRoundText p.1 ek
      (t2, writeBytes p.2 (128 * k) t2))
    ((st.drop 64).take 128, fun _ => 0)).2

/-- Scratchpad address derivation of the main loop: the low 32 bits of the
operand, masked with 0x1FFFF0. -/
def cnAddr (x : Nat) : Nat := (x % 2^32) &&& 0x1FFFF0

/-- The 16 in-memory bytes of the two little-endian 64-bit words a[0], a[1],
used as the AES round key of sub-step A. -/
def keyOfPair (a0 a1 : Nat) : Fin 16 → Nat := fun i =>
  if (i : Nat) < 8 then (a0 >>> (8 * (i : Nat))) % 256
  else (a1 >>> (8 * ((i : Nat) - 8))) % 256

/-- Low eight bytes of an AES block as a little-endian 64-bit word. -/
def le64lo (f : Fin 16 → Nat) : Nat :=
  f 0 + 256 * (f 1 + 256 * (f 2 + 256 * (f 3 + 256 *
    (f 4 + 256 * (f 5 + 256 * (f 6 + 256 * f 7))))))

/-- High eight bytes of an AES block as a little-endian 64-bit word. -/
def le64hi (f : Fin 16 → Nat) : Nat :=
  f 8 + 256 * (f 9 + 256 * (f 10 + 256 * (f 11 + 256 *
    (f 12 + 256 * (f 13 + 256 * (f 14 + 256 * f 15))))))

/-- 64 x 64 to 128 bit multiply, translated from mul_128 in the C source:
32-bit partial products with an explicit carry test on the middle sum. -/
def mul_128 (a b : Nat) : Nat × Nat :=
  let a_lo := a % 2^32
  let a_hi := a >>> 32
  let b_lo := b % 2^32
  let b_hi := b >>> 32
  let p0 := (a_lo * b_lo) % 2^64
  let p1 := (a_lo * b_hi) % 2^64
  let p2 := (a_hi * b_lo) % 2^64
  let p3 := (a_hi * b_hi) % 2^64
  let mid1 := (p1 + (p0 >>> 32)) % 2^64
  let mid2 := (mid1 + p2) % 2^64
  let p3c := if mid2 < p2 then (p3 + 0x100000000) % 2^64 else p3
  (((p3c + (mid2 >>> 32)) % 2^64), ((mid2 <<< 32) % 2^64) ||| (p0 % 2^32))

/-- State of the main loop: the scratchpad and the two 128-bit working
registers a and b, each held as two 64-bit words. -/
structure CNState where
  P : Nat → Nat
  a0 : Nat
  a1 : Nat
  b0 : Nat
  b1 : Nat

/-- View 16 scratchpad bytes starting at a byte offset as an AES block. -/
def blockFnP (P : Nat → Nat) (off : Nat) : Fin 16 → Nat := fun i => P (off + (i : Nat))

/-- One iteration of the main loop, translated line by line from the C
source: sub-step A (AES round, XOR with b, store) then sub-step B
(128-bit multiply, accumulate into a, store, XOR, update b). -/
def cnStep (s : CNState) : CNState :=
  let j1 := cnAddr s.a0
  let c1 := aes_single_round (blockFnP s.P j1) (keyOfPair s.a0 s.a1)
  let c10 := le64lo c1
  let c11 := le64hi c1
  let P1 := store64 (store64 s.P j1 (c10 ^^^ s.b0)) (j1 + 8) (c11 ^^^ s.b1)
  let j2 := cnAddr c10
  let c2_0 := le64P P1 j2
  let c2_1 := le64P P1 (j2 + 8)
  let hl := mul_128 c10 c2_0
  let na0 := (s.a0 + hl.1) % 2^64
  let na1 := (s.a1 + hl.2) % 2^64
  let P2 := store64 (store64 P1 j2 na0) (j2 + 8) na1
  ⟨P2, na0 ^^^ c2_0, na1 ^^^ c2_1, c10, c11⟩

/-- The main loop: CN_ITER / 2 iterations of cnStep. -/
def mainLoop (s : CNState) : CNState := cnStep^[CN_ITER / 2] s

/-! ### The main loop iteration as the specification words it (claim C2) -/

/-- One main-loop iteration written from the wording of the specification:
sub-step A computes j1 from a[0], loads the block at j1, applies one AES
single round with the 16 bytes of a as the round key, and writes the result
XOR b back to P[j1..j1+16); sub-step B computes j2 from c1[0], loads c2_0 and
c2_1, forms the full 128-bit product of c1[0] and c2_0, adds hi to a[0] and
lo to a[1] with unsigned wrapping, writes the new a to P[j2..j2+16), XORs
a[0] with c2_0 and a[1] with c2_1, and finally sets b to c1. -/
def specStep (s : CNState) : CNState :=
  let j1 := cnAddr s.a0
  let c1 := aes_single_round (blockFnP s.P j1) (keyOfPair s.a0 s.a1)
  let c10 := le64lo c1
  let c11 := le64hi c1
  let P1 := store64 (store64 s.P j1 (c10 ^^^ s.b0)) (j1 + 8) (c11 ^^^ s.b1)
  let j2 := cnAddr c10
  let c2_0 := le64P P1 j2
  let c2_1 := le64P P1 (j2 + 8)
  let hl := mul_128 c10 c2_0
  let na0 := (s.a0 + hl.1) % 2^64
  let na1 := (s.a1 + hl.2) % 2^64
  let P2 := store64 (store64 P1 j2 na0) (j2 + 8) na1
  ⟨P2, na0 ^^^ c2_0, na1 ^^^ c2_1, c10, c11⟩

/-! ### Scratchpad reduction, final permutation, finalizer dispatch, driver -/

/-- Scratchpad reduction: walk the 2 MiB buffer in 128-byte strides; for each
16-byte sub-block of the text buffer, XOR in the corresponding scratchpad
block and run the pseudo round. -/
def reduceScratchpad (st : List Nat) (P : Nat → Nat) (ek : List Nat) : List Nat :=
  (List.range (CN_MEMORY / 128)).foldl
    (fun tx k =>
      (List.range 8).foldl
        (fun t j =>
          setRange t (16*j)
            (blockToList (aes_pseudo_round
              (fun i => t.getD (16*j + (i : Nat)) 0 ^^^ P (128*k + 16*j + (i : Nat))) ek)))
        tx)
    ((st.drop 64).take 128)

/-- Read the 200-byte state as 25 little-endian 64-bit lanes. -/
def bytesToLanes (st : List Nat) : List Nat :=
  (List.range 25).map (fun k => le64At st (8*k))

/-- The four terminal hash functions.  They are external collaborators
(Monero reference implementations linked at compile time), so the embedding
treats them as parameters. -/
structure Finalizers where
  blake : List Nat → List Nat
  groestl : List Nat → List Nat
  jh : List Nat → List Nat
  skein : List Nat → List Nat

/-- Finalizer dispatch on the low two bits of the first state byte, as the
switch statement in the C source. -/
def dispatch (fz : Finalizers) (st : List Nat) : List Nat :=
  match st.getD 0 0 &&& 3 with
  | 0 => fz.blake st
  | 1 => fz.groestl st
  | 2 => fz.jh st
  | _ => fz.skein st

/-- The cn/0 digest pipeline of cn_hash for a successful scratchpad
allocation: Keccak, key expansion, scratchpad initialization, register
derivation, main loop, reduction, final permutation, finalizer dispatch. -/
def cnDigest (fz : Finalizers) (input : List Nat) : List Nat :=
  let st := keccak1600 input
  let ek := aes256_expand_key (st.take 32)
  let P0 := initScratchpad st ek
  let a0 := le64At st 0 ^^^ le64At st 32
  let a1 := le64At st 8 ^^^ le64At st 40
  let b0 := le64At st 16 ^^^ le64At st 48
  let b1 := le64At st 24 ^^^ le64At st 56
  let fs := mainLoop ⟨P0, a0, a1, b0, b1⟩
  let ek2 := aes256_expand_key ((st.drop 32).take 32)
  let tx := reduceScratchpad st fs.P ek2
  let st5 := setRange st 64 tx
  let st6 := lanesToBytes (keccakf (bytesToLanes st5))
  dispatch fz st6

/-- cn_hash with the malloc outcome explicit: when allocation fails the C
function returns immediately, so the output buffer keeps its old content;
otherwise the 32-byte digest is written over it. -/
def cn_hash (fz : Finalizers) (allocOk : Bool) (input out : List Nat) : List Nat :=
  if allocOk then cnDigest fz input else out

/-! ### Mining entry point try_hash, translated from the C source -/

/-- The internal copy of the blob hashed by try_hash: the nonce is written
little-endian at byte offsets 39..42 only when the blob length is at least
43; otherwise the blob is left unmodified. -/
def minedInput (blob : List Nat) (nonce : Nat) : List Nat :=
  if 43 ≤ blob.length then
    ((((blob.set 39 (nonce &&& 0xFF)).set 40 ((nonce >>> 8) &&& 0xFF)).set 41
        ((nonce >>> 16) &&& 0xFF)).set 42 ((nonce >>> 24) &&& 0xFF))
  else blob

/-- try_hash: reject blobs longer than the 256-byte internal buffer, copy
and nonce-patch the blob, hash it, then compare the little-endian 64-bit
word at digest bytes [24..32) against the target.  Returns the C int result
together with the final content of the output buffer. -/
def try_hash (fz : Finalizers) (allocOk : Bool) (blob : List Nat) (nonce target : Nat)
    (out : List Nat) : Nat × List Nat :=
  if 256 < blob.length then (0, out)
  else
    let out2 := cn_hash fz allocOk (minedInput blob nonce) out
    (if le64At out2 24 < target then 1 else 0, out2)

/-! ### Host-visible entry cn_slow_hash -/

/-- The error taxonomy of the specification. -/
inductive CNError where
  | AllocationFailure : CNError
  | UnsupportedVariant : CNError
  | InvalidInputLength : CNError
deriving DecidableEq

/-- Modelled from the spec: cn_slow_hash is declared in
src/wasm_build/cryptonight.h but its definition is not part of the
repository sources.  Following sections 6 and 7 of the specification, a
variant other than 0 is rejected at entry with UnsupportedVariant and no
side effects; variant 0 runs cn_hash, and a failed scratchpad allocation
surfaces AllocationFailure with the output buffer untouched.  The prehashed
and height parameters are accepted and ignored.  The result is the final
content of the output buffer together with the reported error, if any. -/
def cn_slow_hash (fz : Finalizers) (allocOk : Bool) (data out : List Nat)
    (variant prehashed height : Nat) : List Nat × Option CNError :=
  if variant ≠ 0 then (out, some CNError.UnsupportedVariant)
  else (cn_hash fz allocOk data out,
        if allocOk then none else some CNError.AllocationFailure)

/-- The statement of claim C8 exactly as the claim words it: for every blob,
blob length, nonce and target, try_hash writes the full digest
unconditionally, and returns non-zero iff the unsigned 64-bit little-endian
word at bytes [24..32) of that digest is strictly less than the target. -/
def tryHashClaimC8 : Prop :=
  ∀ (fz : Finalizers) (blob : List Nat) (nonce target : Nat) (out : List Nat),
    (try_hash fz true blob nonce target out).2 = cnDigest fz (minedInput blob nonce) ∧
    ((try_hash fz true blob nonce target out).1 ≠ 0 ↔
      le64At (try_hash fz true blob nonce target out).2 24 < target)

/-- A concrete placeholder finalizer family used by witness instantiations. -/
def fzConst : Finalizers :=
  ⟨fun _ => List.replicate 32 0, fun _ => List.replicate 32 0,
   fun _ => List.replicate 32 0, fun _ => List.replicate 32 0⟩

/-! ## Theorems -/

set_option maxRecDepth 4096 in
theorem sboxAt_lt (x : Nat) : sboxAt x < 256 := by
  by_cases h : x < 256
  · exact (by decide : ∀ y, y < 256 → sboxAt y < 256) x h
  · unfold sboxAt
    rw [List.getD_eq_default]
    · omega
    · rw [show aes_sbox.length = 256 from rfl]; omega

set_option maxRecDepth 8192 in
theorem gfMul_one : ∀ x, x < 256 → gfMul 1 x = x := by decide

set_option maxRecDepth 8192 in
theorem gfMul_two : ∀ x, x < 256 → gfMul 2 x = xtime x := by decide

set_option maxRecDepth 8192 in
theorem gfMul_three : ∀ x, x < 256 → gfMul 3 x = xtime x ^^^ x := by decide

theorem gfSbox1 (y : Nat) : gfMul 1 (sboxAt y) = sboxAt y :=
  gfMul_one _ (sboxAt_lt y)

theorem gfSbox2 (y : Nat) : gfMul 2 (sboxAt y) = xtime (sboxAt y) :=
  gfMul_two _ (sboxAt_lt y)

theorem gfSbox3 (y : Nat) : gfMul 3 (sboxAt y) = xtime (sboxAt y) ^^^ sboxAt y :=
  gfMul_three _ (sboxAt_lt y)

theorem xor_lcomm (a b c : Nat) : a ^^^ (b ^^^ c) = b ^^^ (a ^^^ c) := by
  rw [← Nat.xor_assoc, Nat.xor_comm a b, Nat.xor_assoc]

/-- C4: for every 16-byte input block and every 16-byte key, aes_single_round
equals SubBytes, then ShiftRows in the column-major layout (index = row +
4*col, rows rotated left by 0/1/2/3), then MixColumns with the MDS matrix
[[2,3,1,1],[1,2,3,1],[1,1,2,3],[3,1,1,2]] over GF(2^8) modulo
x^8+x^4+x^3+x+1, then XOR with the caller-supplied key. -/
theorem claim_C4 (inp key : Fin 16 → Nat) :
    aes_single_round inp key = aesRoundSpec inp key := by
  funext i
  fin_cases i <;>
    simp only [aes_single_round, aesRoundSpec, addRoundKey, mixColumns, shiftRows,
      subBytes, mixColSrc, srcShiftN, mds] <;>
    norm_num <;>
    simp [gfSbox1, gfSbox2, gfSbox3, Nat.xor_assoc, Nat.xor_comm, xor_lcomm]

/-- C2: the main loop executes exactly 262144 iterations, each performing
sub-step A (load the block at j1, one AES single round keyed by the 16 bytes
of a, write the result XOR b back to P[j1..j1+16)) and then sub-step B (full
128-bit product of c1[0] and c2_0, add hi to a[0] and lo to a[1] with
unsigned wrapping, write the new a to P[j2..j2+16), XOR a[0] with c2_0 and
a[1] with c2_1, finally set b to c1). -/
theorem claim_C2 : mainLoop = fun s => specStep^[262144] s := rfl

/-- C5: every scratchpad byte offset used by the main loop is a multiple of
16 and leaves the whole 16-byte access inside the 2 MiB scratchpad. -/
theorem claim_C5 (x : Nat) : cnAddr x % 16 = 0 ∧ cnAddr x + 16 ≤ CN_MEMORY := by
  refine ⟨?_, ?_⟩
  · have h := (Nat.and_pow_two_sub_one_eq_mod (cnAddr x) 4).symm
    norm_num at h
    rw [h, cnAddr, Nat.and_assoc]
    norm_num
    rw [(by decide : ((2097136 : Nat) &&& 15) = 0), Nat.and_zero]
  · have h2 : cnAddr x ≤ 0x1FFFF0 := Nat.and_le_right
    unfold CN_MEMORY
    omega

/-- C7: when the 2 MiB scratchpad allocation fails, cn_hash returns without
producing a digest and the 32-byte output buffer is left untouched (this
silent early return is what the specification names AllocationFailure). -/
theorem claim_C7 (fz : Finalizers) (input out : List Nat) :
    cn_hash fz false input out = out := rfl

/-- C10: cn_slow_hash invoked with any variant other than 0 fails with
UnsupportedVariant, rejected at entry with no side effects: the output
buffer is returned unmodified. -/
theorem claim_C10 (fz : Finalizers) (allocOk : Bool) (data out : List Nat)
    (variant prehashed height : Nat) (h : variant ≠ 0) :
    cn_slow_hash fz allocOk data out variant prehashed height
      = (out, some CNError.UnsupportedVariant) := by
  unfold cn_slow_hash
  simp [h]

/-- Witness for C10 at variant 1. -/
theorem claim_C10_witness :
    (1 : Nat) ≠ 0 ∧
      cn_slow_hash fzConst true [] [7] 1 0 0 = ([7], some CNError.UnsupportedVariant) :=
  ⟨by decide, claim_C10 fzConst true [] [7] 1 0 0 (by decide)⟩

theorem replicate_set_last (n v : Nat) :
    (List.replicate (n+1) (0:Nat)).set n v = List.replicate n 0 ++ [v] := by
  induction n with
  | zero => rfl
  | succ k ih =>
    rw [List.replicate_succ, List.set_cons_succ, ih, List.replicate_succ, List.cons_append]

theorem keccak1600_length (input : List Nat) : (keccak1600 input).length = 200 := by
  simp [keccak1600, lanesToBytes]

theorem keccakAbsorb_full (st input : List Nat) (h : 136 ≤ input.length) :
    keccakAbsorb st input
      = keccakAbsorb (keccakf (absorbBlock st (input.take 136))) (input.drop 136) := by
  rw [keccakAbsorb]
  simp [h]

theorem padBlock_eq (rest : List Nat) (h : rest.length ≤ 134) :
    padBlock rest = rest ++ 0x01 :: (List.replicate (134 - rest.length) 0 ++ [0x80]) := by
  have ht2 : (rest ++ List.replicate (136 - rest.length) 0).set rest.length 0x01
      = rest ++ 0x01 :: List.replicate (135 - rest.length) 0 := by
    rw [List.set_append_right _ _ (Nat.le_refl _), Nat.sub_self,
      show 136 - rest.length = (135 - rest.length) + 1 from by omega, List.replicate_succ,
      List.set_cons_zero]
  have hgd : (rest ++ 0x01 :: List.replicate (135 - rest.length) 0).getD 135 0 = 0 := by
    rw [List.getD_eq_getElem?_getD, List.getElem?_append_right (by omega),
      show 135 - rest.length = (134 - rest.length) + 1 from by omega]
    simp only [List.getElem?_cons_succ, List.getElem?_replicate]
    rw [if_pos (by omega)]
    rfl
  simp only [padBlock]
  rw [ht2, hgd]
  rw [List.set_append_right _ _ (by omega : rest.length ≤ 135),
    show 135 - rest.length = (134 - rest.length) + 1 from by omega, List.set_cons_succ,
    replicate_set_last]
  norm_num

theorem padBlock_full (rest : List Nat) (h : rest.length = 135) :
    padBlock rest = rest ++ [0x81] := by
  simp only [padBlock, h]
  norm_num
  have he : ((rest ++ [0]).set 135 1) = rest ++ [1] := by
    rw [List.set_append_right _ _ (by omega : rest.length ≤ 135)]
    rw [show (135 : Nat) - rest.length = 0 from by omega, List.set_cons_zero]
  rw [he]
  rw [List.getElem?_append_right (by omega : rest.length ≤ 135)]
  rw [show (135 : Nat) - rest.length = 0 from by omega]
  rw [List.set_append_right _ _ (by omega : rest.length ≤ 135)]
  rw [show (135 : Nat) - rest.length = 0 from by omega, List.set_cons_zero]
  rfl

/-- C3: keccak1600 absorbs at a rate of 136 bytes; the final block is the
remaining message followed by 0x01, zeros, and 0x80 OR-ed into the last rate
byte (the 0x01 and the 0x80 landing on the same byte when the message fills
the block minus one); and for every input the full 200-byte state is
emitted rather than a truncated digest. -/
theorem claim_C3 :
    (∀ input, (keccak1600 input).length = 200) ∧
    (∀ st input, 136 ≤ input.length →
      keccakAbsorb st input
        = keccakAbsorb (keccakf (absorbBlock st (input.take 136))) (input.drop 136)) ∧
    (∀ rest, rest.length ≤ 134 →
      padBlock rest = rest ++ 0x01 :: (List.replicate (134 - rest.length) 0 ++ [0x80])) ∧
    (∀ rest, rest.length = 135 → padBlock rest = rest ++ [0x81]) :=
  ⟨keccak1600_length, keccakAbsorb_full, padBlock_eq, padBlock_full⟩

/-- Witness for C3: the empty input, a one-block all-zero input, a short
final block, and the all-but-one-byte final block where 0x01 and 0x80
coincide as 0x81. -/
theorem claim_C3_witness :
    ((keccak1600 []).length = 200) ∧
    (136 ≤ (List.replicate 136 (0:Nat)).length ∧
      keccakAbsorb (List.replicate 25 0) (List.replicate 136 0)
        = keccakAbsorb
            (keccakf (absorbBlock (List.replicate 25 0) ((List.replicate 136 (0:Nat)).take 136)))
            ((List.replicate 136 (0:Nat)).drop 136)) ∧
    (([7] : List Nat).length ≤ 134 ∧
      padBlock [7] = [7] ++ 0x01 :: (List.replicate (134 - ([7] : List Nat).length) 0 ++ [0x80])) ∧
    ((List.replicate 135 (3:Nat)).length = 135 ∧
      padBlock (List.replicate 135 3) = List.replicate 135 3 ++ [0x81]) :=
  ⟨claim_C3.1 [],
   ⟨by simp, claim_C3.2.1 _ _ (by simp)⟩,
   ⟨by decide, claim_C3.2.2.1 [7] (by decide)⟩,
   ⟨by simp, claim_C3.2.2.2 _ (by simp)⟩⟩

theorem or_eq_add_of_lt : ∀ (k z B : Nat), B < 2^k → (z * 2^k) ||| B = z * 2^k + B := by
  intro k
  induction k with
  | zero =>
    intro z B hB
    have : B = 0 := by omega
    subst this
    simp
  | succ k ih =>
    intro z B hB
    have hzz : z * 2 ^ (k+1) = (z * 2 ^ k) * 2 := by ring
    have hx2 : (z * 2 ^ (k+1)) % 2 = 0 := by omega
    have hxd : (z * 2 ^ (k+1)) / 2 = z * 2 ^ k := by omega
    have hmod2 : (z * 2 ^ (k+1) ||| B) % 2 = B % 2 := by
      have hiff := Nat.or_mod_two_eq_one (a := z * 2 ^ (k+1)) (b := B)
      omega
    have hdiv2 : (z * 2 ^ (k+1) ||| B) / 2 = z * 2 ^ k ||| (B / 2) := by
      rw [Nat.or_div_two, hxd]
    have hB2 : B / 2 < 2 ^ k := by omega
    have hih := ih z (B / 2) hB2
    have hself := Nat.div_add_mod (z * 2 ^ (k+1) ||| B) 2
    omega

theorem lor_helper (m q : Nat) :
    ((m * 2^32) % 2^64) ||| (q % 2^32) = (m % 2^32) * 2^32 + q % 2^32 := by
  rw [show (m * 2^32) % 2^64 = (m % 2^32) * 2^32 from by omega,
    or_eq_add_of_lt 32 _ _ (Nat.mod_lt _ (by norm_num))]

/-- C6: for all unsigned 64-bit a and b, mul_128 returns hi and lo with
hi * 2^64 + lo equal to the exact full-width unsigned product a * b. -/
theorem claim_C6 (a b : Nat) (ha : a < 2^64) (hb : b < 2^64) :
    (mul_128 a b).1 * 2^64 + (mul_128 a b).2 = a * b := by
  have hb0 : (a % 2^32) * (b % 2^32) ≤ (2^32 - 1) * (2^32 - 1) :=
    Nat.mul_le_mul (by omega) (by omega)
  have hb1 : (a % 2^32) * (b / 2^32) ≤ (2^32 - 1) * (2^32 - 1) :=
    Nat.mul_le_mul (by omega) (by omega)
  have hb2 : (a / 2^32) * (b % 2^32) ≤ (2^32 - 1) * (2^32 - 1) :=
    Nat.mul_le_mul (by omega) (by omega)
  have hb3 : (a / 2^32) * (b / 2^32) ≤ (2^32 - 1) * (2^32 - 1) :=
    Nat.mul_le_mul (by omega) (by omega)
  have key : a * b = (a / 2^32) * (b / 2^32) * 2^64 + (a % 2^32) * (b / 2^32) * 2^32
      + (a / 2^32) * (b % 2^32) * 2^32 + (a % 2^32) * (b % 2^32) := by
    conv_lhs => rw [← Nat.div_add_mod a (2^32), ← Nat.div_add_mod b (2^32)]
    ring
  simp only [mul_128, Nat.shiftRight_eq_div_pow, Nat.shiftLeft_eq]
  rw [lor_helper]
  generalize hq0 : (a % 2^32) * (b % 2^32) = q0 at *
  generalize hq1 : (a % 2^32) * (b / 2^32) = q1 at *
  generalize hq2 : (a / 2^32) * (b % 2^32) = q2 at *
  generalize hq3 : (a / 2^32) * (b / 2^32) = q3 at *
  generalize hR : a * b = R at *
  split <;> omega

/-- Witness for C6 at a = 2^63 + 12345 and b = 2^64 - 1. -/
theorem claim_C6_witness :
    ((2^63 + 12345 : Nat) < 2^64 ∧ (2^64 - 1 : Nat) < 2^64) ∧
      (mul_128 (2^63 + 12345) (2^64 - 1)).1 * 2^64 + (mul_128 (2^63 + 12345) (2^64 - 1)).2
        = (2^63 + 12345) * (2^64 - 1) :=
  ⟨⟨by norm_num, by norm_num⟩, claim_C6 _ _ (by norm_num) (by norm_num)⟩

theorem dispatch_length (fz : Finalizers) (st : List Nat)
    (h32 : ∀ x, (fz.blake x).length = 32 ∧ (fz.groestl x).length = 32 ∧
      (fz.jh x).length = 32 ∧ (fz.skein x).length = 32) :
    (dispatch fz st).length = 32 := by
  unfold dispatch
  split
  · exact (h32 st).1
  · exact (h32 st).2.1
  · exact (h32 st).2.2.1
  · exact (h32 st).2.2.2

set_option maxRecDepth 2048 in
/-- C8 counterexample: at a 257-byte blob try_hash returns 0 without writing
the digest, so the output buffer keeps whatever content it had, refuting the
unconditional write quantified over every blob length. -/
theorem claim_C8_cex : ¬ tryHashClaimC8 := by
  intro h
  have h1 := (h fzConst (List.replicate 257 0) 0 1 [0]).1
  have h2 := (h fzConst (List.replicate 257 0) 0 1 [1]).1
  have he1 : (try_hash fzConst true (List.replicate 257 0) 0 1 [0]).2 = [0] := by
    simp [try_hash, List.length_replicate]
  have he2 : (try_hash fzConst true (List.replicate 257 0) 0 1 [1]).2 = [1] := by
    simp [try_hash, List.length_replicate]
  rw [he1] at h1
  rw [he2] at h2
  exact absurd (h1.trans h2.symm) (by decide)

/-- C8 (amended): for every blob whose length is at most 256 (longer blobs
are rejected with no digest, a case the spec lists as InvalidInputLength),
and finalizers honoring the 32-byte output contract, try_hash with a
successful allocation writes the full 32-byte digest unconditionally and
returns non-zero iff the unsigned 64-bit little-endian word at bytes
[24..32) of that digest is strictly less than the target. -/
theorem claim_C8 (fz : Finalizers) (blob : List Nat) (nonce target : Nat) (out : List Nat)
    (hlen : blob.length ≤ 256)
    (h32 : ∀ x, (fz.blake x).length = 32 ∧ (fz.groestl x).length = 32 ∧
      (fz.jh x).length = 32 ∧ (fz.skein x).length = 32) :
    (try_hash fz true blob nonce target out).2 = cnDigest fz (minedInput blob nonce) ∧
    (try_hash fz true blob nonce target out).2.length = 32 ∧
    ((try_hash fz true blob nonce target out).1 ≠ 0 ↔
      le64At (try_hash fz true blob nonce target out).2 24 < target) := by
  have hnot : ¬ (256 < blob.length) := by omega
  have hth : try_hash fz true blob nonce target out
      = (if le64At (cnDigest fz (minedInput blob nonce)) 24 < target then 1 else 0,
         cnDigest fz (minedInput blob nonce)) := by
    simp [try_hash, cn_hash, hnot]
  have hdl : (cnDigest fz (minedInput blob nonce)).length = 32 := by
    simp only [cnDigest]
    exact dispatch_length fz _ h32
  refine ⟨by rw [hth], by rw [hth]; exact hdl, ?_⟩
  rw [hth]
  by_cases hc : le64At (cnDigest fz (minedInput blob nonce)) 24 < target
  · simp [hc]
  · simp [hc]

/-- Witness for C8 at the empty blob with target 5. -/
theorem claim_C8_witness :
    (([] : List Nat).length ≤ 256) ∧
      ((try_hash fzConst true [] 0 5 []).2 = cnDigest fzConst (minedInput [] 0) ∧
       (try_hash fzConst true [] 0 5 []).2.length = 32 ∧
       ((try_hash fzConst true [] 0 5 []).1 ≠ 0 ↔
         le64At (try_hash fzConst true [] 0 5 []).2 24 < 5)) :=
  ⟨by decide, claim_C8 fzConst [] 0 5 [] (by decide) (by intro x; simp [fzConst])⟩

theorem getD_set (l : List Nat) (i j v : Nat) :
    (l.set i v).getD j 0 = if j = i ∧ i < l.length then v else l.getD j 0 := by
  rw [List.getD_eq_getElem?_getD, List.getD_eq_getElem?_getD, List.getElem?_set]
  by_cases h1 : i = j
  · subst h1
    by_cases h2 : i < l.length
    · simp [h2]
    · rw [List.getElem?_eq_none (by omega)]
      simp [h2]
  · simp [h1, Ne.symm h1]

/-- C9: try_hash patches its internal copy of the blob with the 32-bit nonce
in little-endian order at byte offsets 39..42 exactly when the blob length
is at least 43; shorter blobs are hashed unmodified; the length is
preserved, and the caller blob itself is never written (minedInput is the
internal copy that try_hash hashes). -/
theorem claim_C9 :
    (∀ blob (nonce : Nat), (minedInput blob nonce).length = blob.length) ∧
    (∀ blob (nonce : Nat), blob.length < 43 → minedInput blob nonce = blob) ∧
    (∀ blob (nonce i : Nat), 43 ≤ blob.length →
      (minedInput blob nonce).getD i 0 =
        if i = 39 then nonce &&& 0xFF
        else if i = 40 then (nonce >>> 8) &&& 0xFF
        else if i = 41 then (nonce >>> 16) &&& 0xFF
        else if i = 42 then (nonce >>> 24) &&& 0xFF
        else blob.getD i 0) := by
  refine ⟨?_, ?_, ?_⟩
  · intro blob nonce
    unfold minedInput
    split <;> simp
  · intro blob nonce h
    unfold minedInput
    rw [if_neg (by omega)]
  · intro blob nonce i h
    unfold minedInput
    rw [if_pos h]
    rw [getD_set, getD_set, getD_set, getD_set]
    simp only [List.length_set]
    by_cases h39 : i = 39 <;> by_cases h40 : i = 40 <;> by_cases h41 : i = 41 <;>
      by_cases h42 : i = 42 <;> simp_all <;> omega

/-- Witness for C9: a short blob left unmodified and a 43-byte blob picking
up one little-endian nonce byte at offset 40. -/
theorem claim_C9_witness :
    ((minedInput [1, 2] 7).length = 2) ∧
    (([1, 2] : List Nat).length < 43 ∧ minedInput [1, 2] 7 = [1, 2]) ∧
    (43 ≤ (List.replicate 43 (5:Nat)).length ∧
      (minedInput (List.replicate 43 5) 0x0A0B0C0D).getD 40 0 =
        if (40:Nat) = 39 then 0x0A0B0C0D &&& 0xFF
        else if (40:Nat) = 40 then ((0x0A0B0C0D:Nat) >>> 8) &&& 0xFF
        else if (40:Nat) = 41 then ((0x0A0B0C0D:Nat) >>> 16) &&& 0xFF
        else if (40:Nat) = 42 then ((0x0A0B0C0D:Nat) >>> 24) &&& 0xFF
        else (List.replicate 43 (5:Nat)).getD 40 0) :=
  ⟨claim_C9.1 [1, 2] 7,
   ⟨by decide, claim_C9.2.1 [1, 2] 7 (by decide)⟩,
   ⟨by simp, claim_C9.2.2 (List.replicate 43 5) 0x0A0B0C0D 40 (by simp)⟩⟩

end CryptoNight
